import Mathlib

/-!
Verification development for the legislation parser
(`legislationparser/legislationparser.py`).

The XML tree handed to the parser by lxml is embedded as the inductive
type `Node`.  Element tags are represented with their namespace prefix
spelled out (`"l:P1"`, `"html:table"`, `"m:math"`, `"ukm:Metadata"`,
`"dc:title"`), mirroring the `"{uri}Name"` strings the Python code
manipulates through `ns_tag` / the `ns` prefix map.

The yattag output document is an append-only buffer, which we model by
returning the emitted HTML fragment as a `String`; `with self.tag(...)`
blocks become bracketing of the fragment produced inside the block.

The recursive transformers (`parse_parts`, `parse_section_items`,
`parse_section`, `parse_blockamendment`, `parse_schedule_parts`) are
mutually recursive over the tree; they are embedded as one interpreter
`run : Nat → Call → Except PyErr String` that is structurally recursive
on a fuel argument, with one `Call` constructor per source function (and
one per iteration loop inside a source function).  Fuel only bounds the
recursion depth of the embedding; every concrete evaluation below uses
enough fuel to be fuel-independent.  Python exceptions are modelled by
the `Except` error channel.
-/

/-- An lxml element: tag, attributes, leading text, children, tail text.
`text` and `tail` are `Option String` because lxml yields `None` for an
absent text node. -/
inductive Node : Type where
  | mk : String → List (String × String) → Option String → List Node → Option String → Node

def Node.tag : Node → String
  | .mk t _ _ _ _ => t

def Node.attrs : Node → List (String × String)
  | .mk _ a _ _ _ => a

def Node.text : Node → Option String
  | .mk _ _ t _ _ => t

def Node.children : Node → List Node
  | .mk _ _ _ cs _ => cs

def Node.tail : Node → Option String
  | .mk _ _ _ _ tl => tl

/-- Models `element.get(name)`: attribute lookup, `None` when absent. -/
def Node.getAttr (n : Node) (key : String) : Option String :=
  (n.attrs.find? (fun kv => kv.1 == key)).map (fun kv => kv.2)

/-- Models `element.find("./ns:Tag")`: the first child with the given tag,
or `None`. -/
def findChild (n : Node) (tag : String) : Option Node :=
  n.children.find? (fun c => c.tag == tag)

/-- Models Python truthiness of an `Optional[Element]` as used in
`parse_parts`: `None` is falsy, and an lxml element is truthy exactly
when it has at least one child element (`len(element) > 0`). -/
def pyTruthyElem : Option Node → Bool
  | none => false
  | some e => !e.children.isEmpty

/-- Models the `num is None` test in `parse_section`.  `num` is the result
of `element.xpath("string(./l:Pnumber)")`, which in lxml is always a
`str` (the empty string when no `Pnumber` child exists) and never `None`,
so the test is false on every input. -/
def strIsNone (_ : String) : Bool := false

/-- Whitespace class of the `\s` regex used by `clean_text`. -/
def isWs (c : Char) : Bool :=
  c = ' ' || c = '\t' || c = '\n' || c = '\r' || c = '\x0b' || c = '\x0c'

/-- Core of `re.sub(r"\s+", " ", txt)`: the flag records whether the
previous character was part of a whitespace run already replaced. -/
def wsGo : Bool → List Char → List Char
  | _, [] => []
  | inRun, c :: rest =>
      if isWs c then
        if inRun then wsGo true rest else ' ' :: wsGo true rest
      else c :: wsGo false rest

/-- Models `clean_text`: `None` becomes the empty string, and every
maximal whitespace run collapses to a single space. -/
def cleanText : Option String → String
  | none => ""
  | some s => String.mk (wsGo false s.data)

/-- Models Python `str.strip()` (no arguments): remove leading and
trailing whitespace. -/
def stripWs (s : String) : String :=
  String.mk (((s.data.dropWhile isWs).reverse.dropWhile isWs).reverse)

/-- Character set of `str.strip('”“"')` in the `InlineAmendment` branch. -/
def isAmendQuote (c : Char) : Bool :=
  c = '”' || c = '“' || c = '"'

/-- Models `str.strip('”“"')`. -/
def stripAmendQuotes (s : String) : String :=
  String.mk (((s.data.dropWhile isAmendQuote).reverse.dropWhile isAmendQuote).reverse)

/-- Word characters of the `\w` regex class (ASCII model). -/
def isWordChar (c : Char) : Bool :=
  c.isAlpha || c.isDigit || c = '_'

/-- Core of `re.sub(r"[^\w]+", "-", txt)`: each maximal non-word run is
replaced by one hyphen. -/
def slugGo : Bool → List Char → List Char
  | _, [] => []
  | inRun, c :: rest =>
      if isWordChar c then c :: slugGo false rest
      else if inRun then slugGo true rest else '-' :: slugGo true rest

/-- Models `slugify`: lower-case, then collapse non-word runs to single
hyphens. -/
def slugify (txt : String) : String :=
  String.mk (slugGo false txt.toLower.data)

/-- Escape applied by yattag to text inserted with `self.text(...)`. -/
def escChar (c : Char) : String :=
  if c = '&' then "&amp;"
  else if c = '<' then "&lt;"
  else if c = '>' then "&gt;"
  else String.singleton c

def htmlEscape (s : String) : String :=
  String.join (s.data.map escChar)

/-- Escape applied by yattag to attribute values. -/
def attrEscChar (c : Char) : String :=
  if c = '&' then "&amp;"
  else if c = '<' then "&lt;"
  else if c = '"' then "&quot;"
  else String.singleton c

def attrEscape (s : String) : String :=
  String.join (s.data.map attrEscChar)

/-- Attribute list rendering for an opening tag.  A `none` value renders
the bare attribute name (yattag's valueless-attribute form); every
attribute the parser emits has a string value. -/
def renderAttrs (attrs : List (String × Option String)) : String :=
  String.join (attrs.map (fun kv =>
    match kv.2 with
    | some v => " " ++ kv.1 ++ "=\"" ++ attrEscape v ++ "\""
    | none => " " ++ kv.1))

/-- Models a `with self.tag(name, *attrs)` block around an emitted
fragment. -/
def renderTag (name : String) (attrs : List (String × Option String)) (inner : String) : String :=
  "<" ++ name ++ renderAttrs attrs ++ ">" ++ inner ++ "</" ++ name ++ ">"

/-- Fueled worker for the XPath string value of a child list: each
child contributes its string value followed by its tail text.  Fuel
bounds the tree depth explored; all uses supply enough fuel. -/
def svAux : Nat → List Node → String
  | 0, _ => ""
  | _ + 1, [] => ""
  | f + 1, c :: rest =>
      c.text.getD "" ++ svAux f c.children ++ c.tail.getD "" ++ svAux f rest

/-- XPath string value of an element (`xpath("string(.)")`): its text
followed by, for each child, the child's string value and tail. -/
def stringValue (f : Nat) (n : Node) : String :=
  n.text.getD "" ++ svAux f n.children

/-- Models `el.xpath("string(./ns:Tag)")`: the string value of the first
matching child, or the empty string. -/
def xpathStringChild (f : Nat) (n : Node) (tag : String) : String :=
  match findChild n tag with
  | some c => stringValue f c
  | none => ""

/-- Models `el.xpath("string(./l:A/l:B)")`: the string value of the first
`B` grandchild under an `A` child, in document order. -/
def xpathStringPath2 (f : Nat) (n : Node) (t1 t2 : String) : String :=
  match (n.children.filter (fun c => c.tag == t1)).flatMap
      (fun c => c.children.filter (fun c2 => c2.tag == t2)) with
  | [] => ""
  | c :: _ => stringValue f c

/-- Nodes selected by `./l:Title|./l:TitleBlock/l:Title` in document
order, as used by `get_title`. -/
def titleUnionNodes (el : Node) (titleTag titleBlockTag : String) : List Node :=
  el.children.flatMap (fun c =>
    if c.tag == titleTag then [c]
    else if c.tag == titleBlockTag then c.children.filter (fun c2 => c2.tag == titleTag)
    else [])

/-- Fueled serializer for a list of siblings, modelling
`ET.tostring(el, method="html", encoding="unicode")` (which includes the
element's tail text). -/
def serAux : Nat → List Node → String
  | 0, _ => ""
  | _ + 1, [] => ""
  | f + 1, c :: rest =>
      "<" ++ c.tag
        ++ String.join (c.attrs.map (fun kv => " " ++ kv.1 ++ "=\"" ++ attrEscape kv.2 ++ "\""))
        ++ ">" ++ htmlEscape (c.text.getD "") ++ serAux f c.children
        ++ "</" ++ c.tag ++ ">" ++ htmlEscape (c.tail.getD "")
        ++ serAux f rest

def serialize (f : Nat) (n : Node) : String :=
  serAux f [n]

/-- Strip one `[a-z]+:` namespace marker, as matched (after `<` and an
optional `/`) by the regex in `un_namespace`. -/
def dropNsMark (cs : List Char) : List Char :=
  let letters := cs.takeWhile (fun c => 'a' ≤ c && c ≤ 'z')
  if letters.isEmpty then cs
  else
    match cs.drop letters.length with
    | ':' :: r => r
    | _ => cs

/-- Fueled scanner for `re.sub(r"<(/?)[a-z]+:", r"<\1", html)`; the fuel
is initialized to the string length, which always suffices. -/
def unNsAux : Nat → List Char → List Char
  | 0, _ => []
  | _ + 1, [] => []
  | f + 1, c :: rest =>
      if c = '<' then
        match rest with
        | '/' :: r2 => '<' :: '/' :: unNsAux f (dropNsMark r2)
        | r2 => '<' :: unNsAux f (dropNsMark r2)
      else c :: unNsAux f rest

def unNamespace (s : String) : String :=
  String.mk (unNsAux s.data.length s.data)

/-- Models `ns_tag`: prefix a local name with the legislation namespace. -/
def lTag (name : String) : String :=
  "l:" ++ name

/-- Depth-specific provision tag `P1` … (`"P{}".format(i)`). -/
def pTag (i : Nat) : String :=
  lTag ("P" ++ Nat.repr i)

/-- Depth-specific paragraph tag `P1para` … (`"P{}para".format(i)`). -/
def pParaTag (i : Nat) : String :=
  lTag ("P" ++ Nat.repr i ++ "para")

/-- The `_part_tags` list built in `__init__`. -/
def partTags : List String :=
  [lTag "Pblock", lTag "PsubBlock", lTag "Part", lTag "Chapter", lTag "ScheduleBody"]

/-- `child_section_tags` in `parse_section_items`: the tags of
`range(level + 1, level + 4)`. -/
def childSectionTags (level : Nat) : List String :=
  [pTag (level + 1), pTag (level + 2), pTag (level + 3)]

/-- `para_tags` in `parse_section_items`: `P{i}para` for `i` in
`range(level, level + 4)`, plus `Para`. -/
def paraTags (level : Nat) : List String :=
  [pParaTag level, pParaTag (level + 1), pParaTag (level + 2), pParaTag (level + 3), lTag "Para"]

/-- Container-level tags tested first by `parse_blockamendment`. -/
def amendGroupTags : List String :=
  [lTag "P1group", lTag "Pblock", lTag "Part", lTag "Chapter"]

/-- Python exceptions raised (or raisable) by the parser, plus the
fuel-exhaustion marker of the embedding. -/
inductive PyErr where
  | unknownPartTag (serialized : String)
  | unknownTag (serialized : String)
  | noNumber
  | attrError
  | typeError
  | fuelExhausted
deriving DecidableEq

deriving instance DecidableEq for Except

/-- The branch of the `parse_parts` dispatch chain selected for a tag. -/
inductive PartBranch where
  | container
  | group
  | titleMarker
  | numberMarker
  | signed
  | textPara
  | reference
  | unknown
deriving DecidableEq

/-- Tag dispatch of `parse_parts`, in source order. -/
def partBranchOf (tag : String) : PartBranch :=
  if tag ∈ partTags then .container
  else if tag = lTag "P1group" then .group
  else if tag = lTag "Title" ∨ tag = lTag "TitleBlock" then .titleMarker
  else if tag = lTag "Number" then .numberMarker
  else if tag = lTag "SignedSection" then .signed
  else if tag = lTag "Text" then .textPara
  else if tag = lTag "Reference" then .reference
  else .unknown

/-- The branch of the `parse_section_items` dispatch chain selected for a
tag at a given level. -/
inductive ItemBranch where
  | text
  | appendText
  | unordered
  | ordered
  | listItem
  | para
  | tabular
  | blockAmendment
  | blockText
  | formula
  | buffered
  | scheduleBody
  | skip
  | unknown
deriving DecidableEq

/-- Tag dispatch of `parse_section_items`, in source order.  All branch
conditions are mutually exclusive (the `P{i}` tags of `buffered` differ
from every literal tag and every `P{i}para` tag), so testing them in
source order is equivalent to the Python `elif` chain. -/
def itemBranchOf (level : Nat) (tag : String) : ItemBranch :=
  if tag = lTag "Text" then .text
  else if tag = lTag "AppendText" then .appendText
  else if tag = lTag "UnorderedList" then .unordered
  else if tag = lTag "OrderedList" then .ordered
  else if tag = lTag "ListItem" then .listItem
  else if tag ∈ paraTags level then .para
  else if tag = lTag "Tabular" then .tabular
  else if tag = lTag "BlockAmendment" then .blockAmendment
  else if tag = lTag "BlockText" then .blockText
  else if tag = lTag "Formula" then .formula
  else if tag ∈ childSectionTags level then .buffered
  else if tag = lTag "ScheduleBody" then .scheduleBody
  else if tag = lTag "Pnumber" ∨ tag = lTag "Title" ∨ tag = lTag "TitleBlock"
      ∨ tag = lTag "Number" ∨ tag = lTag "Reference" then .skip
  else .unknown

/-- The recognized closed tag set of the `parse_parts` dispatcher. -/
def partsKnownTags : List String :=
  partTags ++ [lTag "P1group", lTag "Title", lTag "TitleBlock", lTag "Number",
    lTag "SignedSection", lTag "Text", lTag "Reference"]

/-- The recognized closed tag set of the `parse_section_items` dispatcher
at a given level. -/
def itemsKnownTags (level : Nat) : List String :=
  [lTag "Text", lTag "AppendText", lTag "UnorderedList", lTag "OrderedList", lTag "ListItem"]
    ++ paraTags level
    ++ [lTag "Tabular", lTag "BlockAmendment", lTag "BlockText", lTag "Formula"]
    ++ childSectionTags level
    ++ [lTag "ScheduleBody", lTag "Pnumber", lTag "Title", lTag "TitleBlock",
      lTag "Number", lTag "Reference"]

/-- Models `get_title`: an `h{level}` heading whose text is
`Number: Title` when the element has a non-empty `Number` string, else
just the title; the title comes from `./l:Title|./l:TitleBlock/l:Title`. -/
def getTitle (f : Nat) (el : Node) (level : Nat) : String :=
  let num := xpathStringChild f el (lTag "Number")
  let ttl :=
    match titleUnionNodes el (lTag "Title") (lTag "TitleBlock") with
    | [] => ""
    | c :: _ => stringValue f c
  let inner :=
    if num ≠ "" then
      stripWs (cleanText (some num)) ++ ": " ++ stripWs (cleanText (some ttl))
    else stripWs (cleanText (some ttl))
  "<h" ++ Nat.repr level ++ ">" ++ htmlEscape inner ++ "</h" ++ Nat.repr level ++ ">"

/-- Rendering of one inline child inside `get_text`: an `Acronym` becomes
an `abbr` with its expansion, an `InlineAmendment` a quoted span with
outer quote characters stripped, anything else its flattened text. -/
def inlinePiece (f : Nat) (c : Node) : String :=
  if c.tag = lTag "Acronym" then
    renderTag "abbr" [("title", c.getAttr "Expansion")]
      (htmlEscape (cleanText (some (stringValue f c))))
  else if c.tag = lTag "InlineAmendment" then
    renderTag "q" [("class", some "amendment")]
      (htmlEscape (stripAmendQuotes (cleanText (some (stringValue f c)))))
  else htmlEscape (cleanText (some (stringValue f c)))

/-- The per-child loop of `get_text`: each child's rendering followed by
its whitespace-normalized tail text. -/
def textPieces (f : Nat) : List Node → String
  | [] => ""
  | c :: rest => inlinePiece f c ++ htmlEscape (cleanText c.tail) ++ textPieces f rest

/-- Models `get_text`: leading text, then every inline child with its
tail, all whitespace-normalized and escaped by the output buffer. -/
def getText (f : Nat) (item : Node) : String :=
  htmlEscape (cleanText item.text) ++ textPieces f item.children

/-- Models `detect_level`: the first depth in 1..5 for which some element
of the run carries that depth's numbering tag. -/
def detectLevel (elements : List Node) : Option Nat :=
  [1, 2, 3, 4, 5].find? (fun i => elements.any (fun el => el.tag == pTag i))

/-- The `id` attribute list built from an element's truthy `id`
attribute (`if element.get("id"): ...`). -/
def idAttrs (el : Node) : List (String × Option String) :=
  match el.getAttr "id" with
  | some v => if v ≠ "" then [("id", some v)] else []
  | none => []

/-- The `data-number` attribute from a truthy `NumberOverride`. -/
def overrideAttrs (el : Node) : List (String × Option String) :=
  match el.getAttr "NumberOverride" with
  | some v => if v ≠ "" then [("data-number", some v)] else []
  | none => []

/-- The condition of the bare-element special case in `parse_parts`:
`part.find("./l:P1") or part.find("./l:Tabular") or
part.find("./l:BlockAmendment")`, under lxml truthiness. -/
def bareElementsCond (part : Node) : Bool :=
  pyTruthyElem (findChild part (lTag "P1"))
    || pyTruthyElem (findChild part (lTag "Tabular"))
    || pyTruthyElem (findChild part (lTag "BlockAmendment"))

/-- Models `parse_tabular`: serialize the embedded XHTML table;
`ET.tostring(None)` is a `TypeError` when the table is missing. -/
def parseTabular (f : Nat) (element : Node) : Except PyErr String :=
  match findChild element "html:table" with
  | none => .error .typeError
  | some t => .ok (serialize f t)

/-- Models `parse_mathml`: serialize the embedded MathML root and strip
namespace prefixes from the serialized text. -/
def parseMathml (f : Nat) (item : Node) : Except PyErr String :=
  match findChild item "m:math" with
  | none => .error .typeError
  | some m => .ok (unNamespace (serialize f m))

/-- One constructor per recursive transformer of the source, plus one per
iteration loop inside a transformer. -/
inductive Call where
  | parts (body : Node) (level : Nat)
  | partsLoop (children : List Node) (body : Node) (level : Nat)
  | items (sect : Node) (level : Nat)
  | itemsLoop (children : List Node) (elements : List Node) (level : Nat)
  | dispatch (item : Node) (level : Nat)
  | sectionCall (elements : List Node) (level : Nat)
  | sectionLoop (elements : List Node) (level : Nat)
  | blockAmendment (item : Node)
  | schedules (node : Node)
  | schedulesLoop (nodes : List Node)

/-- The mutually recursive transformers, as one fueled interpreter.

* `.parts` / `.partsLoop`: `parse_parts(body, level)` and its child loop;
* `.items` / `.itemsLoop`: `parse_section_items(section, level)` with the
  mutable `elements` buffer made explicit;
* `.dispatch`: the non-buffering branches of the `parse_section_items`
  dispatch chain for one child;
* `.sectionCall` / `.sectionLoop`: `parse_section(elements, level)`;
* `.blockAmendment`: `parse_blockamendment(item)`;
* `.schedules` / `.schedulesLoop`: `parse_schedule_parts(schedules)`. -/
def run : Nat → Call → Except PyErr String
  | 0, _ => .error .fuelExhausted
  | f + 1, .parts body level => run f (.partsLoop body.children body level)
  | _ + 1, .partsLoop [] _ _ => .ok ""
  | f + 1, .partsLoop (part :: rest) body level =>
      (match partBranchOf part.tag with
       | .container => do
           let inner ←
             if bareElementsCond part then run f (.items part 0)
             else run f (.parts part (level + 1))
           let tl ← run f (.partsLoop rest body level)
           .ok (renderTag "section" (idAttrs part) inner ++ tl)
       | .group => do
           let inner ← run f (.sectionCall (part.children.filter (fun c => c.tag == lTag "P1")) 1)
           let tl ← run f (.partsLoop rest body level)
           .ok (renderTag "section"
              [("id", some (slugify (xpathStringChild f part (lTag "Title"))))]
              (getTitle f part 3 ++ inner) ++ tl)
       | .titleMarker => do
           let tl ← run f (.partsLoop rest body level)
           .ok (getTitle f body 2 ++ tl)
       | .numberMarker => run f (.partsLoop rest body level)
       | .signed => run f (.partsLoop rest body level)
       | .textPara => do
           let tl ← run f (.partsLoop rest body level)
           .ok (renderTag "p" [] (getText f part) ++ tl)
       | .reference => run f (.partsLoop rest body level)
       | .unknown => .error (.unknownPartTag (serialize f part)))
  | f + 1, .items sect level => run f (.itemsLoop sect.children [] level)
  | f + 1, .itemsLoop [] elements level =>
      if elements.isEmpty then .ok ""
      else run f (.sectionCall elements (level + 1))
  | f + 1, .itemsLoop (item :: rest) elements level =>
      if itemBranchOf level item.tag = ItemBranch.buffered then
        run f (.itemsLoop rest (elements ++ [item]) level)
      else do
        let flushed ←
          if elements.isEmpty then .ok ""
          else run f (.sectionCall elements (level + 1))
        let out ← run f (.dispatch item level)
        let tl ← run f (.itemsLoop rest [] level)
        .ok (flushed ++ out ++ tl)
  | f + 1, .dispatch item level =>
      (match itemBranchOf level item.tag with
       | .text => .ok (renderTag "p" [] (getText f item))
       | .appendText => .ok (getText f item)
       | .unordered => (run f (.items item (level + 1))).map (fun s => renderTag "ul" [] s)
       | .ordered => (run f (.items item (level + 1))).map (fun s => renderTag "ol" [] s)
       | .listItem =>
           (run f (.items item (level + 1))).map (fun s => renderTag "li" (overrideAttrs item) s)
       | .para => run f (.items item level)
       | .tabular => parseTabular f item
       | .blockAmendment =>
           (run f (.blockAmendment item)).map
             (fun s => renderTag "blockquote" [("class", some "amendment")] s)
       | .blockText => run f (.items item level)
       | .formula => parseMathml f item
       -- never selected by `.itemsLoop`, which accumulates buffered
       -- items into the pending run instead of dispatching them
       | .buffered => .ok ""
       | .scheduleBody => run f (.parts item level)
       | .skip => .ok ""
       | .unknown => .error (.unknownTag (serialize f item)))
  | f + 1, .sectionCall elements level =>
      let resolved := (detectLevel elements).getD level
      (run f (.sectionLoop elements resolved)).map
        (fun s => "<ol class=\"p" ++ Nat.repr resolved ++ "\">" ++ s ++ "</ol>")
  | _ + 1, .sectionLoop [] _ => .ok ""
  | f + 1, .sectionLoop (el :: rest) level =>
      let num := xpathStringChild f el (lTag "Pnumber")
      if strIsNone num then .error .noNumber
      else do
        let inner ← run f (.items el level)
        let tl ← run f (.sectionLoop rest level)
        .ok (renderTag "li" ([("data-number", some num)] ++ idAttrs el) inner ++ tl)
  | f + 1, .blockAmendment item =>
      if 0 < (item.children.filter (fun c => amendGroupTags.contains c.tag)).length then
        run f (.parts item 1)
      else if !(item.children.filter
          (fun c => c.tag == lTag "Tabular" || c.tag == lTag "Text")).isEmpty then
        run f (.items item 1)
      else run f (.sectionCall item.children 1)
  | f + 1, .schedules node =>
      run f (.schedulesLoop (node.children.filter (fun c => c.tag == lTag "Schedule")))
  | _ + 1, .schedulesLoop [] => .ok ""
  | f + 1, .schedulesLoop (sch :: rest) => do
      let inner ← run f (.parts sch 2)
      let tl ← run f (.schedulesLoop rest)
      .ok (renderTag "section" [("class", some "schedule")] (getTitle f sch 2 ++ inner) ++ tl)

/-- Models `get_root`: the `Primary` child if present, else the
`Secondary` child, else nothing, together with the `self.type` value the
method records. -/
def getRoot (doc : Node) : Option (Node × String) :=
  match findChild doc (lTag "Primary") with
  | some r => some (r, "primary")
  | none =>
      match findChild doc (lTag "Secondary") with
      | some r => some (r, "secondary")
      | none => none

/-- Models `get_body`: `None` without a root; `AttributeError` when the
root has no `Body` child (the source then calls `body.xpath` on `None`);
otherwise the fragment emitted by `parse_parts(body)` at default depth 2. -/
def getBody (f : Nat) (doc : Node) : Except PyErr (Option String) :=
  match getRoot doc with
  | none => .ok none
  | some (root, _) =>
      match findChild root (lTag "Body") with
      | none => .error .attrError
      | some body => (run f (.parts body 2)).map some

/-- Models `get_schedules`. -/
def getSchedules (f : Nat) (doc : Node) : Except PyErr (Option String) :=
  match getRoot doc with
  | none => .ok none
  | some (root, _) =>
      match findChild root (lTag "Schedules") with
      | none => .ok (some "")
      | some s => (run f (.schedules s)).map some

structure Preamble where
  title : String
  number : String
  long_title : String
  enacting_text : String
deriving DecidableEq

/-- Models `get_preamble`: `None` without a root; `AttributeError` when
the variant's prelims child is missing; otherwise the four string
fields. -/
def getPreamble (f : Nat) (doc : Node) : Except PyErr (Option Preamble) :=
  match getRoot doc with
  | none => .ok none
  | some (root, ty) =>
      match findChild root (if ty = "primary" then lTag "PrimaryPrelims"
          else lTag "SecondaryPrelims") with
      | none => .error .attrError
      | some prelims =>
          .ok (some
            { title := xpathStringChild f prelims (lTag "Title")
              number := xpathStringChild f prelims (lTag "Number")
              long_title := xpathStringChild f prelims (lTag "LongTitle")
              enacting_text :=
                xpathStringPath2 f prelims (lTag "PrimaryPreamble") (lTag "EnactingText") })

/-- The fixed key-to-selector mapping of `get_metadata`, in insertion
order. -/
def metaSelectors : List (String × String) :=
  [("title", "dc:title"), ("description", "dc:description"), ("modified", "dc:modified")]

/-- Models `get_metadata`: `AttributeError` when the `Metadata` subtree
is absent (the source calls `md.find` on `None`); otherwise one entry per
present source element, carrying that element's text (`None` for an
empty element). -/
def getMetadata (doc : Node) : Except PyErr (List (String × Option String)) :=
  match findChild doc "ukm:Metadata" with
  | none => .error .attrError
  | some md =>
      .ok (metaSelectors.filterMap (fun ks =>
        (findChild md ks.2).map (fun el => (ks.1, el.text))))

/-- The run-of-numbered-items membership test, one depth: models the
inner `for el in elements` loop of `detect_level`. -/
def hasPTag (elements : List Node) (i : Nat) : Bool :=
  elements.any (fun el => el.tag == pTag i)

/-- Level Detector as the claim words it: the explicit depth of the
first tag *in the run* matching a numbering-depth pattern for depths 1
through 5.  (The source instead scans depth-first: smallest depth
present anywhere in the run.) -/
def claimedDetectLevel (elements : List Node) : Option Nat :=
  elements.findSome? (fun el => [1, 2, 3, 4, 5].find? (fun i => el.tag == pTag i))

/-- Buffered class as the claim words it: numbered items exactly one
level below the current level.  (The source buffers one to three levels
below.) -/
def claimedChildTags (level : Nat) : List String :=
  [pTag (level + 1)]

/-- Item dispatch as the claim words it: identical to the source chain
except that only items exactly one level below are recognized as
buffered run members. -/
def claimedItemBranchOf (level : Nat) (tag : String) : ItemBranch :=
  if tag = lTag "Text" then .text
  else if tag = lTag "AppendText" then .appendText
  else if tag = lTag "UnorderedList" then .unordered
  else if tag = lTag "OrderedList" then .ordered
  else if tag = lTag "ListItem" then .listItem
  else if tag ∈ paraTags level then .para
  else if tag = lTag "Tabular" then .tabular
  else if tag = lTag "BlockAmendment" then .blockAmendment
  else if tag = lTag "BlockText" then .blockText
  else if tag = lTag "Formula" then .formula
  else if tag ∈ claimedChildTags level then .buffered
  else if tag = lTag "ScheduleBody" then .scheduleBody
  else if tag = lTag "Pnumber" ∨ tag = lTag "Title" ∨ tag = lTag "TitleBlock"
      ∨ tag = lTag "Number" ∨ tag = lTag "Reference" then .skip
  else .unknown

/-- Section-item child loop as the claim words it: buffer only items
exactly one level below, flush on anything else, delegate the
non-buffering branches exactly as the source does. -/
def claimedItemsLoop : Nat → List Node → List Node → Nat → Except PyErr String
  | 0, _, _, _ => .error .fuelExhausted
  | f + 1, [], elements, level =>
      if elements.isEmpty then .ok ""
      else run f (.sectionCall elements (level + 1))
  | f + 1, item :: rest, elements, level =>
      if claimedItemBranchOf level item.tag = ItemBranch.buffered then
        claimedItemsLoop f rest (elements ++ [item]) level
      else do
        let flushed ←
          if elements.isEmpty then .ok ""
          else run f (.sectionCall elements (level + 1))
        let out ←
          match claimedItemBranchOf level item.tag with
          | .unknown => .error (.unknownTag (serialize f item))
          | _ => run f (.dispatch item level)
        let tl ← claimedItemsLoop f rest [] level
        .ok (flushed ++ out ++ tl)

/-! Concrete input trees used by the claim theorems below. -/

def textNode (s : String) : Node := .mk (lTag "Text") [] (some s) [] none

def pnumNode (s : String) : Node := .mk (lTag "Pnumber") [] (some s) [] none

def p2Node (num body : String) : Node :=
  .mk (lTag "P2") [] none [pnumNode num, textNode body] none

/-- A provision with three depth-2 items, a plain paragraph, then two
more depth-2 items (the list-grouping scenario of the spec). -/
def provision1 : Node :=
  .mk (lTag "P1") [] none
    [p2Node "1" "a", p2Node "2" "b", p2Node "3" "c", textNode "para",
      p2Node "4" "d", p2Node "5" "e"] none

/-- The mixed-content node of the spec's fidelity example: text `"Foo "`,
an abbreviation child with expansion `"Bar"` and text `"B"`, tail
`" baz"`. -/
def fooNode : Node :=
  .mk (lTag "Text") [] (some "Foo ")
    [.mk (lTag "Acronym") [("Expansion", "Bar")] (some "B") [] (some " baz")] none

/-- A numbered item that reaches list emission without any `Pnumber`
child. -/
def noNumP1 : Node := .mk (lTag "P1") [] none [textNode "hi"] none

/-- A `P1` child that exists but is empty in the lxml-truthiness sense
(no child elements). -/
def emptyP1 : Node := .mk (lTag "P1") [] (some "body text") [] none

def pblockNode : Node := .mk (lTag "Pblock") [] none [emptyP1] none

def dummyBody : Node := .mk (lTag "Body") [] none [pblockNode] none

def p1item : Node := .mk (lTag "P1") [] none [pnumNode "1", textNode "x"] none

def p1groupNode : Node :=
  .mk (lTag "P1group") [] none [.mk (lTag "Title") [] (some "Amend") [] none, p1item] none

/-- A block amendment whose fragment holds one grouped provision. -/
def baNode : Node := .mk (lTag "BlockAmendment") [] none [p1groupNode] none

def titleNode : Node := .mk (lTag "Title") [] (some "T") [] none

def parentNode : Node := .mk (lTag "Part") [] none [titleNode] none

def p2bare : Node := .mk (lTag "P2") [] none [] none

def p1bare : Node := .mk (lTag "P1") [] none [] none

/-- A document with neither root variant and no metadata subtree. -/
def bareDoc : Node := .mk "root" [] none [] none

/-- A document whose metadata subtree holds an empty `dc:title`. -/
def docEmptyTitle : Node :=
  .mk "root" [] none
    [.mk "ukm:Metadata" [] none [.mk "dc:title" [] none [] none] none] none

def mdFull : Node :=
  .mk "ukm:Metadata" [] none
    [.mk "dc:title" [] (some "An Act") [] none,
      .mk "dc:modified" [] (some "2020-01-01") [] none] none

/-- A document with a metadata subtree holding a title and a modified
date but no description. -/
def docFullMeta : Node := .mk "root" [] none [mdFull] none

lemma digitChar_isDigit (n : Nat) (h : n < 10) : (Nat.digitChar n).isDigit = true := by
  interval_cases n <;> decide

lemma toDigitsCore_isDigit :
    ∀ (fuel n : Nat) (acc : List Char), (∀ c ∈ acc, c.isDigit = true) →
      ∀ c ∈ Nat.toDigitsCore 10 fuel n acc, c.isDigit = true := by
  intro fuel
  induction fuel with
  | zero => intro n acc hacc c hc; exact hacc c hc
  | succ f ih =>
      intro n acc hacc c hc
      unfold Nat.toDigitsCore at hc
      by_cases h0 : n / 10 = 0
      · simp only [h0, if_true, List.mem_cons] at hc
        rcases hc with hc | hc
        · subst hc; exact digitChar_isDigit _ (Nat.mod_lt _ (by omega))
        · exact hacc c hc
      · simp only [h0, if_false] at hc
        refine ih (n / 10) _ ?_ c hc
        intro d hd
        rcases List.mem_cons.mp hd with hd | hd
        · subst hd; exact digitChar_isDigit _ (Nat.mod_lt _ (by omega))
        · exact hacc d hd

lemma repr_isDigit (n : Nat) : ∀ c ∈ (Nat.repr n).data, c.isDigit = true := by
  intro c hc
  have hdata : (Nat.repr n).data = Nat.toDigits 10 n := rfl
  rw [hdata] at hc
  exact toDigitsCore_isDigit (n + 1) n [] (by simp) c hc

lemma pTag_data (i : Nat) : (pTag i).data = 'l' :: ':' :: 'P' :: (Nat.repr i).data := by
  simp [pTag, lTag, String.data_append]

lemma pParaTag_data (j : Nat) :
    (pParaTag j).data = 'l' :: ':' :: 'P' :: ((Nat.repr j).data ++ ['p', 'a', 'r', 'a']) := by
  simp [pParaTag, lTag, String.data_append]

lemma pTag_get2 (i : Nat) : (pTag i).data.get? 2 = some 'P' := by
  rw [pTag_data]; rfl

lemma pParaTag_get2 (j : Nat) : (pParaTag j).data.get? 2 = some 'P' := by
  rw [pParaTag_data]; rfl

lemma pTag_ne_of_get2 {s : String} (hs : s.data.get? 2 ≠ some 'P') (i : Nat) : pTag i ≠ s := by
  intro h
  exact hs (h ▸ pTag_get2 i)

lemma pParaTag_ne_of_get2 {s : String} (hs : s.data.get? 2 ≠ some 'P') (j : Nat) :
    pParaTag j ≠ s := by
  intro h
  exact hs (h ▸ pParaTag_get2 j)

lemma pTag_ne_pParaTag (i j : Nat) : pTag i ≠ pParaTag j := by
  intro h
  have hd : 'l' :: ':' :: 'P' :: (Nat.repr i).data
      = 'l' :: ':' :: 'P' :: ((Nat.repr j).data ++ ['p', 'a', 'r', 'a']) := by
    rw [← pTag_data, ← pParaTag_data, h]
  simp only [List.cons.injEq, true_and] at hd
  have hp : 'r' ∈ (Nat.repr i).data := by rw [hd]; simp
  exact absurd (repr_isDigit i 'r' hp) (by decide)

lemma pTag_ne_lPara (i : Nat) : pTag i ≠ lTag "Para" := by
  intro h
  have hd : 'l' :: ':' :: 'P' :: (Nat.repr i).data = ['l', ':', 'P', 'a', 'r', 'a'] := by
    rw [← pTag_data, h]; rfl
  simp only [List.cons.injEq, true_and] at hd
  have hp : 'r' ∈ (Nat.repr i).data := by rw [hd]; simp
  exact absurd (repr_isDigit i 'r' hp) (by decide)

lemma pTag_not_paraTag (i : Nat) (level : Nat) : pTag i ∉ paraTags level := by
  simp only [paraTags, List.mem_cons, List.not_mem_nil, or_false]
  push_neg
  exact ⟨pTag_ne_pParaTag i level, pTag_ne_pParaTag i (level + 1),
    pTag_ne_pParaTag i (level + 2), pTag_ne_pParaTag i (level + 3), pTag_ne_lPara i⟩

lemma blockAmendment_not_paraTag (level : Nat) : lTag "BlockAmendment" ∉ paraTags level := by
  simp only [paraTags, List.mem_cons, List.not_mem_nil, or_false]
  push_neg
  refine ⟨?_, ?_, ?_, ?_, by decide⟩ <;>
    exact fun h => (pParaTag_ne_of_get2 (by decide) _) h.symm

set_option linter.unnecessarySeqFocus false in
lemma partBranch_unknown_iff (tag : String) :
    partBranchOf tag = PartBranch.unknown ↔ tag ∉ partsKnownTags := by
  unfold partBranchOf partsKnownTags
  split_ifs with h1 h2 h3 h4 h5 h6 h7 <;>
    simp_all [List.mem_append, List.mem_cons] <;> tauto


lemma pTag_ne_lPnumber (i : Nat) : pTag i ≠ lTag "Pnumber" := by
  intro h
  have hd : 'l' :: ':' :: 'P' :: (Nat.repr i).data
      = ['l', ':', 'P', 'n', 'u', 'm', 'b', 'e', 'r'] := by
    rw [← pTag_data, h]; rfl
  simp only [List.cons.injEq, true_and] at hd
  have hp : 'n' ∈ (Nat.repr i).data := by rw [hd]; simp
  exact absurd (repr_isDigit i 'n' hp) (by decide)

lemma pParaTag_ne_lPnumber (j : Nat) : pParaTag j ≠ lTag "Pnumber" := by
  intro h
  have hd : 'l' :: ':' :: 'P' :: ((Nat.repr j).data ++ ['p', 'a', 'r', 'a'])
      = ['l', ':', 'P', 'n', 'u', 'm', 'b', 'e', 'r'] := by
    rw [← pParaTag_data, h]; rfl
  simp only [List.cons.injEq, true_and] at hd
  have hp : 'n' ∈ (Nat.repr j).data ++ ['p', 'a', 'r', 'a'] := by rw [hd]; simp
  rcases List.mem_append.mp hp with hp | hp
  · exact absurd (repr_isDigit j 'n' hp) (by decide)
  · simp at hp

lemma not_paraTag_of_get2 (level : Nat) {s : String} (hs : s.data.get? 2 ≠ some 'P')
    (hp : s ≠ lTag "Para") : s ∉ paraTags level := by
  simp only [paraTags, List.mem_cons, List.not_mem_nil, or_false]
  push_neg
  exact ⟨fun h => pParaTag_ne_of_get2 hs level h.symm,
    fun h => pParaTag_ne_of_get2 hs (level + 1) h.symm,
    fun h => pParaTag_ne_of_get2 hs (level + 2) h.symm,
    fun h => pParaTag_ne_of_get2 hs (level + 3) h.symm, hp⟩

lemma not_childTags_of_get2 (level : Nat) {s : String} (hs : s.data.get? 2 ≠ some 'P') :
    s ∉ childSectionTags level := by
  simp only [childSectionTags, List.mem_cons, List.not_mem_nil, or_false]
  push_neg
  exact ⟨fun h => pTag_ne_of_get2 hs (level + 1) h.symm,
    fun h => pTag_ne_of_get2 hs (level + 2) h.symm,
    fun h => pTag_ne_of_get2 hs (level + 3) h.symm⟩

lemma lPnumber_not_paraTag (level : Nat) : lTag "Pnumber" ∉ paraTags level := by
  simp only [paraTags, List.mem_cons, List.not_mem_nil, or_false]
  push_neg
  exact ⟨fun h => pParaTag_ne_lPnumber level h.symm,
    fun h => pParaTag_ne_lPnumber (level + 1) h.symm,
    fun h => pParaTag_ne_lPnumber (level + 2) h.symm,
    fun h => pParaTag_ne_lPnumber (level + 3) h.symm, by decide⟩

lemma lPnumber_not_childTags (level : Nat) : lTag "Pnumber" ∉ childSectionTags level := by
  simp only [childSectionTags, List.mem_cons, List.not_mem_nil, or_false]
  push_neg
  exact ⟨fun h => pTag_ne_lPnumber (level + 1) h.symm,
    fun h => pTag_ne_lPnumber (level + 2) h.symm,
    fun h => pTag_ne_lPnumber (level + 3) h.symm⟩

lemma lPara_not_childTags (level : Nat) : lTag "Para" ∉ childSectionTags level := by
  simp only [childSectionTags, List.mem_cons, List.not_mem_nil, or_false]
  push_neg
  exact ⟨fun h => pTag_ne_lPara (level + 1) h.symm,
    fun h => pTag_ne_lPara (level + 2) h.symm,
    fun h => pTag_ne_lPara (level + 3) h.symm⟩



lemma itemBranch_buffered_mpr (level : Nat) (tag : String)
    (hmem : tag ∈ childSectionTags level) : itemBranchOf level tag = ItemBranch.buffered := by
  have htag : tag = pTag (level + 1) ∨ tag = pTag (level + 2) ∨ tag = pTag (level + 3) := by
    simpa [childSectionTags] using hmem
  have hne : ∀ s : String, s.data.get? 2 ≠ some 'P' → tag ≠ s := by
    rcases htag with h | h | h <;> (subst h; exact fun s hs => pTag_ne_of_get2 hs _)
  have hpara : tag ∉ paraTags level := by
    rcases htag with h | h | h <;> (subst h; exact pTag_not_paraTag _ level)
  unfold itemBranchOf
  rw [if_neg (hne _ (by decide)), if_neg (hne _ (by decide)), if_neg (hne _ (by decide)),
    if_neg (hne _ (by decide)), if_neg (hne _ (by decide)), if_neg hpara,
    if_neg (hne _ (by decide)), if_neg (hne _ (by decide)), if_neg (hne _ (by decide)),
    if_neg (hne _ (by decide)), if_pos hmem]

lemma itemBranch_buffered_fwd (level : Nat) (tag : String)
    (h : itemBranchOf level tag = ItemBranch.buffered) : tag ∈ childSectionTags level := by
  unfold itemBranchOf at h
  by_cases h1 : tag = lTag "Text"
  · rw [if_pos h1] at h; exact ItemBranch.noConfusion h
  rw [if_neg h1] at h
  by_cases h2 : tag = lTag "AppendText"
  · rw [if_pos h2] at h; exact ItemBranch.noConfusion h
  rw [if_neg h2] at h
  by_cases h3 : tag = lTag "UnorderedList"
  · rw [if_pos h3] at h; exact ItemBranch.noConfusion h
  rw [if_neg h3] at h
  by_cases h4 : tag = lTag "OrderedList"
  · rw [if_pos h4] at h; exact ItemBranch.noConfusion h
  rw [if_neg h4] at h
  by_cases h5 : tag = lTag "ListItem"
  · rw [if_pos h5] at h; exact ItemBranch.noConfusion h
  rw [if_neg h5] at h
  by_cases h6 : tag ∈ paraTags level
  · rw [if_pos h6] at h; exact ItemBranch.noConfusion h
  rw [if_neg h6] at h
  by_cases h7 : tag = lTag "Tabular"
  · rw [if_pos h7] at h; exact ItemBranch.noConfusion h
  rw [if_neg h7] at h
  by_cases h8 : tag = lTag "BlockAmendment"
  · rw [if_pos h8] at h; exact ItemBranch.noConfusion h
  rw [if_neg h8] at h
  by_cases h9 : tag = lTag "BlockText"
  · rw [if_pos h9] at h; exact ItemBranch.noConfusion h
  rw [if_neg h9] at h
  by_cases h10 : tag = lTag "Formula"
  · rw [if_pos h10] at h; exact ItemBranch.noConfusion h
  rw [if_neg h10] at h
  by_cases h11 : tag ∈ childSectionTags level
  · exact h11
  rw [if_neg h11] at h
  by_cases h12 : tag = lTag "ScheduleBody"
  · rw [if_pos h12] at h; exact ItemBranch.noConfusion h
  rw [if_neg h12] at h
  by_cases h13 : tag = lTag "Pnumber" ∨ tag = lTag "Title" ∨ tag = lTag "TitleBlock"
      ∨ tag = lTag "Number" ∨ tag = lTag "Reference"
  · rw [if_pos h13] at h; exact ItemBranch.noConfusion h
  · rw [if_neg h13] at h; exact ItemBranch.noConfusion h

lemma itemBranch_buffered_iff (level : Nat) (tag : String) :
    itemBranchOf level tag = ItemBranch.buffered ↔ tag ∈ childSectionTags level :=
  ⟨itemBranch_buffered_fwd level tag, itemBranch_buffered_mpr level tag⟩

lemma itemsLoop_buffer (run1 : List Node) (f : Nat) (rest acc : List Node) (level : Nat)
    (hb : ∀ n ∈ run1, itemBranchOf level n.tag = ItemBranch.buffered) :
    run (run1.length + f) (.itemsLoop (run1 ++ rest) acc level)
      = run f (.itemsLoop rest (acc ++ run1) level) := by
  induction run1 generalizing acc with
  | nil => simp
  | cons r rs ih =>
      have hlen : (r :: rs).length + f = (rs.length + f) + 1 := by
        simp [List.length_cons]; omega
      rw [hlen]
      have hr : itemBranchOf level r.tag = ItemBranch.buffered := hb r (by simp)
      show run ((rs.length + f) + 1) (.itemsLoop (r :: (rs ++ rest)) acc level) = _
      simp only [run, hr, if_pos]
      rw [ih (acc ++ [r]) (fun n hn => hb n (by simp [hn]))]
      simp

lemma mem_items_A (level : Nat) {t : String}
    (h : t ∈ [lTag "Text", lTag "AppendText", lTag "UnorderedList", lTag "OrderedList",
      lTag "ListItem"]) : t ∈ itemsKnownTags level :=
  List.mem_append_left _ (List.mem_append_left _ (List.mem_append_left _
    (List.mem_append_left _ h)))

lemma mem_items_para (level : Nat) {t : String} (h : t ∈ paraTags level) :
    t ∈ itemsKnownTags level :=
  List.mem_append_left _ (List.mem_append_left _ (List.mem_append_left _
    (List.mem_append_right _ h)))

lemma mem_items_B (level : Nat) {t : String}
    (h : t ∈ [lTag "Tabular", lTag "BlockAmendment", lTag "BlockText", lTag "Formula"]) :
    t ∈ itemsKnownTags level :=
  List.mem_append_left _ (List.mem_append_left _ (List.mem_append_right _ h))

lemma mem_items_child (level : Nat) {t : String} (h : t ∈ childSectionTags level) :
    t ∈ itemsKnownTags level :=
  List.mem_append_left _ (List.mem_append_right _ h)

lemma mem_items_C (level : Nat) {t : String}
    (h : t ∈ [lTag "ScheduleBody", lTag "Pnumber", lTag "Title", lTag "TitleBlock",
      lTag "Number", lTag "Reference"]) : t ∈ itemsKnownTags level :=
  List.mem_append_right _ h

lemma itemBranch_unknown_iff (level : Nat) (tag : String) :
    itemBranchOf level tag = ItemBranch.unknown ↔ tag ∉ itemsKnownTags level := by
  unfold itemBranchOf
  by_cases h1 : tag = lTag "Text"
  · rw [if_pos h1]
    exact iff_of_false (fun hh => ItemBranch.noConfusion hh)
      (fun hn => hn (mem_items_A level (by rw [h1]; decide)))
  rw [if_neg h1]
  by_cases h2 : tag = lTag "AppendText"
  · rw [if_pos h2]
    exact iff_of_false (fun hh => ItemBranch.noConfusion hh)
      (fun hn => hn (mem_items_A level (by rw [h2]; decide)))
  rw [if_neg h2]
  by_cases h3 : tag = lTag "UnorderedList"
  · rw [if_pos h3]
    exact iff_of_false (fun hh => ItemBranch.noConfusion hh)
      (fun hn => hn (mem_items_A level (by rw [h3]; decide)))
  rw [if_neg h3]
  by_cases h4 : tag = lTag "OrderedList"
  · rw [if_pos h4]
    exact iff_of_false (fun hh => ItemBranch.noConfusion hh)
      (fun hn => hn (mem_items_A level (by rw [h4]; decide)))
  rw [if_neg h4]
  by_cases h5 : tag = lTag "ListItem"
  · rw [if_pos h5]
    exact iff_of_false (fun hh => ItemBranch.noConfusion hh)
      (fun hn => hn (mem_items_A level (by rw [h5]; decide)))
  rw [if_neg h5]
  by_cases h6 : tag ∈ paraTags level
  · rw [if_pos h6]
    exact iff_of_false (fun hh => ItemBranch.noConfusion hh)
      (fun hn => hn (mem_items_para level h6))
  rw [if_neg h6]
  by_cases h7 : tag = lTag "Tabular"
  · rw [if_pos h7]
    exact iff_of_false (fun hh => ItemBranch.noConfusion hh)
      (fun hn => hn (mem_items_B level (by rw [h7]; decide)))
  rw [if_neg h7]
  by_cases h8 : tag = lTag "BlockAmendment"
  · rw [if_pos h8]
    exact iff_of_false (fun hh => ItemBranch.noConfusion hh)
      (fun hn => hn (mem_items_B level (by rw [h8]; decide)))
  rw [if_neg h8]
  by_cases h9 : tag = lTag "BlockText"
  · rw [if_pos h9]
    exact iff_of_false (fun hh => ItemBranch.noConfusion hh)
      (fun hn => hn (mem_items_B level (by rw [h9]; decide)))
  rw [if_neg h9]
  by_cases h10 : tag = lTag "Formula"
  · rw [if_pos h10]
    exact iff_of_false (fun hh => ItemBranch.noConfusion hh)
      (fun hn => hn (mem_items_B level (by rw [h10]; decide)))
  rw [if_neg h10]
  by_cases h11 : tag ∈ childSectionTags level
  · rw [if_pos h11]
    exact iff_of_false (fun hh => ItemBranch.noConfusion hh)
      (fun hn => hn (mem_items_child level h11))
  rw [if_neg h11]
  by_cases h12 : tag = lTag "ScheduleBody"
  · rw [if_pos h12]
    exact iff_of_false (fun hh => ItemBranch.noConfusion hh)
      (fun hn => hn (mem_items_C level (by rw [h12]; decide)))
  rw [if_neg h12]
  by_cases h13 : tag = lTag "Pnumber" ∨ tag = lTag "Title" ∨ tag = lTag "TitleBlock"
      ∨ tag = lTag "Number" ∨ tag = lTag "Reference"
  · rw [if_pos h13]
    refine iff_of_false (fun hh => ItemBranch.noConfusion hh) (fun hn => ?_)
    rcases h13 with h | h | h | h | h <;> exact hn (mem_items_C level (by rw [h]; decide))
  · rw [if_neg h13]
    refine iff_of_true rfl (fun hmem => ?_)
    unfold itemsKnownTags at hmem
    rcases List.mem_append.mp hmem with hm | hm
    on_goal 2 =>
      simp only [List.mem_cons, List.not_mem_nil, or_false] at hm
      rcases hm with rfl | rfl | rfl | rfl | rfl | rfl
      · exact h12 rfl
      all_goals exact h13 (by tauto)
    rcases List.mem_append.mp hm with hm | hm
    on_goal 2 => exact h11 hm
    rcases List.mem_append.mp hm with hm | hm
    on_goal 2 =>
      simp only [List.mem_cons, List.not_mem_nil, or_false] at hm
      rcases hm with rfl | rfl | rfl | rfl
      · exact h7 rfl
      · exact h8 rfl
      · exact h9 rfl
      · exact h10 rfl
    rcases List.mem_append.mp hm with hm | hm
    on_goal 2 => exact h6 hm
    simp only [List.mem_cons, List.not_mem_nil, or_false] at hm
    rcases hm with rfl | rfl | rfl | rfl | rfl
    · exact h1 rfl
    · exact h2 rfl
    · exact h3 rfl
    · exact h4 rfl
    · exact h5 rfl

/-- C1.  Exhaustive-or-fail dispatch: both transformers reach a defined
branch exactly for tags in their recognized closed sets, and on any
other tag the walk raises the fatal unknown-tag error instead of
skipping the node. -/
theorem spec_C1 :
    (∀ tag : String, partBranchOf tag ≠ PartBranch.unknown ↔ tag ∈ partsKnownTags) ∧
    (∀ (level : Nat) (tag : String),
      itemBranchOf level tag ≠ ItemBranch.unknown ↔ tag ∈ itemsKnownTags level) ∧
    (∀ (f : Nat) (part : Node) (rest : List Node) (body : Node) (level : Nat),
      part.tag ∉ partsKnownTags →
        run (f + 1) (.partsLoop (part :: rest) body level)
          = .error (.unknownPartTag (serialize f part))) ∧
    (∀ (f : Nat) (item : Node) (level : Nat),
      item.tag ∉ itemsKnownTags level →
        run (f + 1) (.dispatch item level) = .error (.unknownTag (serialize f item))) := by
  refine ⟨?_, ?_, ?_, ?_⟩
  · intro tag
    rw [not_iff_comm, Iff.comm, partBranch_unknown_iff]
  · intro level tag
    rw [not_iff_comm, Iff.comm, itemBranch_unknown_iff]
  · intro f part rest body level h
    have hb := (partBranch_unknown_iff part.tag).mpr h
    simp only [run, hb]
  · intro f item level h
    have hb := (itemBranch_unknown_iff level item.tag).mpr h
    simp only [run, hb]

def bogusNode : Node := .mk (lTag "Bogus") [] (some "zzz") [] none

/-- Witness for C1 at a concrete unrecognized tag and a concrete
recognized tag. -/
theorem spec_C1_witness :
    run 4 (.partsLoop [bogusNode] dummyBody 2)
        = .error (.unknownPartTag "<l:Bogus>zzz</l:Bogus>")
      ∧ run 4 (.dispatch bogusNode 0) = .error (.unknownTag "<l:Bogus>zzz</l:Bogus>")
      ∧ partBranchOf (lTag "Part") ≠ PartBranch.unknown
      ∧ itemBranchOf 0 (lTag "Text") ≠ ItemBranch.unknown := by
  refine ⟨?_, ?_, ?_, ?_⟩
  · have := spec_C1.2.2.1 3 bogusNode [] dummyBody 2 (by decide)
    simpa using this
  · have := spec_C1.2.2.2 3 bogusNode 0 (by decide)
    simpa using this
  · exact (spec_C1.1 (lTag "Part")).mpr (by decide)
  · exact (spec_C1.2.1 0 (lTag "Text")).mpr (by decide)

/-- C3 (amended).  The Section-Item Transformer at level `L` buffers the
numbered items one to three levels below `L` (tags `P(L+1)`..`P(L+3)`),
flushes the pending run as one ordered list at `L+1` when any other
child arrives while the run is non-empty, flushes a trailing run the
same way, and the three-items/paragraph/two-items scenario yields
exactly two ordered lists with the paragraph between them. -/
theorem spec_C3_amended :
    (∀ (level : Nat) (tag : String),
      itemBranchOf level tag = ItemBranch.buffered ↔ tag ∈ childSectionTags level) ∧
    (∀ (run1 : List Node) (f : Nat) (rest acc : List Node) (level : Nat),
      (∀ n ∈ run1, n.tag ∈ childSectionTags level) →
        run (run1.length + f) (.itemsLoop (run1 ++ rest) acc level)
          = run f (.itemsLoop rest (acc ++ run1) level)) ∧
    (∀ (f : Nat) (item : Node) (rest acc : List Node) (level : Nat),
      item.tag ∉ childSectionTags level → acc ≠ [] →
        run (f + 1) (.itemsLoop (item :: rest) acc level)
          = (do
              let flushed ← run f (.sectionCall acc (level + 1))
              let out ← run f (.dispatch item level)
              let tl ← run f (.itemsLoop rest [] level)
              .ok (flushed ++ out ++ tl))) ∧
    (∀ (f : Nat) (acc : List Node) (level : Nat), acc ≠ [] →
      run (f + 1) (.itemsLoop [] acc level) = run f (.sectionCall acc (level + 1))) ∧
    run 30 (.items provision1 1)
      = .ok ("<ol class=\"p2\"><li data-number=\"1\"><p>a</p></li><li data-number=\"2\">"
          ++ "<p>b</p></li><li data-number=\"3\"><p>c</p></li></ol><p>para</p>"
          ++ "<ol class=\"p2\"><li data-number=\"4\"><p>d</p></li><li data-number=\"5\">"
          ++ "<p>e</p></li></ol>") := by
  refine ⟨itemBranch_buffered_iff, ?_, ?_, ?_, ?_⟩
  · intro run1 f rest acc level h
    exact itemsLoop_buffer run1 f rest acc level
      (fun n hn => (itemBranch_buffered_iff level n.tag).mpr (h n hn))
  · intro f item rest acc level hitem hacc
    have hb : ¬ itemBranchOf level item.tag = ItemBranch.buffered :=
      fun hc => hitem ((itemBranch_buffered_iff level item.tag).mp hc)
    have hie : acc.isEmpty = false := by
      cases acc
      · exact absurd rfl hacc
      · rfl
    simp only [run, if_neg hb, hie, Bool.false_eq_true, if_false]
  · intro f acc level hacc
    have hie : acc.isEmpty = false := by
      cases acc
      · exact absurd rfl hacc
      · rfl
    simp only [run, hie, Bool.false_eq_true, if_false]
  · set_option maxRecDepth 10000 in decide

/-- Witness for C3 (amended) at a concrete one-element trailing run. -/
theorem spec_C3_amended_witness :
    run 3 (.itemsLoop [] [p2Node "1" "a"] 1) = run 2 (.sectionCall [p2Node "1" "a"] 2) :=
  spec_C3_amended.2.2.2.1 2 [p2Node "1" "a"] 1 (List.cons_ne_nil _ _)

/-- C3 counterexample: at level 0 a `P2` child (two levels below) is
buffered into the run by the source, while under the claim's
exactly-one-level rule it is not a run member and the dispatcher has no
branch for it. -/
theorem spec_C3_cex :
    run 9 (.itemsLoop [p2Node "1" "a", textNode "b"] [] 0)
        = .ok "<ol class=\"p2\"><li data-number=\"1\"><p>a</p></li></ol><p>b</p>"
      ∧ claimedItemsLoop 9 [p2Node "1" "a", textNode "b"] [] 0
        = .error (.unknownTag "<l:P2><l:Pnumber>1</l:Pnumber><l:Text>a</l:Text></l:P2>")
      ∧ run 9 (.itemsLoop [p2Node "1" "a", textNode "b"] [] 0)
        ≠ claimedItemsLoop 9 [p2Node "1" "a", textNode "b"] [] 0 := by
  refine ⟨?_, ?_, ?_⟩ <;> (set_option maxRecDepth 10000 in decide)

lemma detectLevel_eq_find (elements : List Node) :
    detectLevel elements = [1, 2, 3, 4, 5].find? (hasPTag elements) := rfl

lemma detectLevel_some_iff (elements : List Node) (i : Nat) :
    detectLevel elements = some i ↔
      (1 ≤ i ∧ i ≤ 5 ∧ hasPTag elements i = true ∧
        ∀ j, 1 ≤ j → j < i → hasPTag elements j = false) := by
  rw [detectLevel_eq_find]
  cases h1 : hasPTag elements 1 with
  | true =>
      simp only [List.find?, h1]
      constructor
      · intro h
        injection h with h
        subst h
        exact ⟨by omega, by omega, h1, fun j hj1 hji => by omega⟩
      · rintro ⟨hi1, hi5, hany, hmin⟩
        have hik : i = 1 := by
          by_contra hne
          have hc := hmin 1 (by omega) (by omega)
          rw [h1] at hc
          cases hc
        subst hik
        rfl
  | false =>
      simp only [List.find?, h1]
      cases h2 : hasPTag elements 2 with
      | true =>
          simp only [h2]
          constructor
          · intro h
            injection h with h
            subst h
            refine ⟨by omega, by omega, h2, fun j hj1 hji => ?_⟩
            interval_cases j
            exact h1
          · rintro ⟨hi1, hi5, hany, hmin⟩
            have hik : i = 2 := by
              by_contra hne
              rcases Nat.lt_or_ge i 2 with hlt | hge
              · interval_cases i
                rw [h1] at hany
                cases hany
              · have hc := hmin 2 (by omega) (by omega)
                rw [h2] at hc
                cases hc
            subst hik
            rfl
      | false =>
          simp only [h2]
          cases h3 : hasPTag elements 3 with
          | true =>
              simp only [h3]
              constructor
              · intro h
                injection h with h
                subst h
                refine ⟨by omega, by omega, h3, fun j hj1 hji => ?_⟩
                interval_cases j
                · exact h1
                · exact h2
              · rintro ⟨hi1, hi5, hany, hmin⟩
                have hik : i = 3 := by
                  by_contra hne
                  rcases Nat.lt_or_ge i 3 with hlt | hge
                  · interval_cases i
                    · rw [h1] at hany; cases hany
                    · rw [h2] at hany; cases hany
                  · have hc := hmin 3 (by omega) (by omega)
                    rw [h3] at hc
                    cases hc
                subst hik
                rfl
          | false =>
              simp only [h3]
              cases h4 : hasPTag elements 4 with
              | true =>
                  simp only [h4]
                  constructor
                  · intro h
                    injection h with h
                    subst h
                    refine ⟨by omega, by omega, h4, fun j hj1 hji => ?_⟩
                    interval_cases j
                    · exact h1
                    · exact h2
                    · exact h3
                  · rintro ⟨hi1, hi5, hany, hmin⟩
                    have hik : i = 4 := by
                      by_contra hne
                      rcases Nat.lt_or_ge i 4 with hlt | hge
                      · interval_cases i
                        · rw [h1] at hany; cases hany
                        · rw [h2] at hany; cases hany
                        · rw [h3] at hany; cases hany
                      · have hc := hmin 4 (by omega) (by omega)
                        rw [h4] at hc
                        cases hc
                    subst hik
                    rfl
              | false =>
                  simp only [h4]
                  cases h5 : hasPTag elements 5 with
                  | true =>
                      simp only [h5]
                      constructor
                      · intro h
                        injection h with h
                        subst h
                        refine ⟨by omega, by omega, h5, fun j hj1 hji => ?_⟩
                        interval_cases j
                        · exact h1
                        · exact h2
                        · exact h3
                        · exact h4
                      · rintro ⟨hi1, hi5, hany, hmin⟩
                        have hik : i = 5 := by
                          by_contra hne
                          rcases Nat.lt_or_ge i 5 with hlt | hge
                          · interval_cases i
                            · rw [h1] at hany; cases hany
                            · rw [h2] at hany; cases hany
                            · rw [h3] at hany; cases hany
                            · rw [h4] at hany; cases hany
                          · have hc := hmin 5 (by omega) (by omega)
                            rw [h5] at hc
                            cases hc
                        subst hik
                        rfl
                  | false =>
                      simp only [h5, List.find?]
                      refine iff_of_false (fun h => Option.noConfusion h) ?_
                      rintro ⟨hi1, hi5, hany, hmin⟩
                      interval_cases i
                      · rw [h1] at hany; cases hany
                      · rw [h2] at hany; cases hany
                      · rw [h3] at hany; cases hany
                      · rw [h4] at hany; cases hany
                      · rw [h5] at hany; cases hany

lemma detectLevel_none_iff (elements : List Node) :
    detectLevel elements = none ↔ ∀ i, 1 ≤ i → i ≤ 5 → hasPTag elements i = false := by
  rw [detectLevel_eq_find, List.find?_eq_none]
  constructor
  · intro h i h1 h5
    have := h i (by interval_cases i <;> decide)
    cases hh : hasPTag elements i
    · rfl
    · exact absurd hh this
  · intro h a ha
    simp only [List.mem_cons, List.not_mem_nil, or_false] at ha
    rcases ha with rfl | rfl | rfl | rfl | rfl
    · simp [h 1 (by omega) (by omega)]
    · simp [h 2 (by omega) (by omega)]
    · simp [h 3 (by omega) (by omega)]
    · simp [h 4 (by omega) (by omega)]
    · simp [h 5 (by omega) (by omega)]

/-- C4 (amended).  `detect_level` returns the smallest depth in 1..5
whose numbering tag occurs anywhere in the run (a depth-major scan, not
the depth of the first matching tag in run order), returns nothing when
no element matches, and in that case the List Emitter uses the candidate
level unchanged. -/
theorem spec_C4_amended :
    (∀ (elements : List Node) (i : Nat),
      detectLevel elements = some i ↔
        (1 ≤ i ∧ i ≤ 5 ∧ hasPTag elements i = true ∧
          ∀ j, 1 ≤ j → j < i → hasPTag elements j = false)) ∧
    (∀ elements : List Node,
      detectLevel elements = none ↔ ∀ i, 1 ≤ i → i ≤ 5 → hasPTag elements i = false) ∧
    (∀ (f : Nat) (elements : List Node) (level : Nat),
      detectLevel elements = none →
        run (f + 1) (.sectionCall elements level)
          = (run f (.sectionLoop elements level)).map
              (fun s => "<ol class=\"p" ++ Nat.repr level ++ "\">" ++ s ++ "</ol>")) := by
  refine ⟨detectLevel_some_iff, detectLevel_none_iff, ?_⟩
  intro f elements level h
  simp only [run, h, Option.getD_none]

/-- Witness for C4 (amended): a run with no numbering tag leaves the
candidate level 7 unchanged, and the depth-major scan fires on a
concrete run. -/
theorem spec_C4_amended_witness :
    (run 3 (.sectionCall [textNode "x"] 7)
        = (run 2 (.sectionLoop [textNode "x"] 7)).map
            (fun s => "<ol class=\"p" ++ Nat.repr 7 ++ "\">" ++ s ++ "</ol>"))
      ∧ detectLevel [p2bare, p1bare] = some 1 := by
  constructor
  · exact spec_C4_amended.2.2 2 [textNode "x"] 7 (by decide)
  · exact (spec_C4_amended.1 [p2bare, p1bare] 1).mpr
      ⟨by omega, by omega, by decide, fun j hj1 hji => by omega⟩

/-- C4 counterexample: in the run `[P2, P1]` the first tag matching a
numbering-depth pattern is the `P2` (depth 2), but `detect_level`
returns 1, because it scans depths first and elements second. -/
theorem spec_C4_cex :
    detectLevel [p2bare, p1bare] = some 1
      ∧ claimedDetectLevel [p2bare, p1bare] = some 2
      ∧ detectLevel [p2bare, p1bare] ≠ claimedDetectLevel [p2bare, p1bare] := by
  refine ⟨?_, ?_, ?_⟩ <;> decide

/-- C2.  The code's behavior at the failing input: a numbered item with
no `Pnumber` child reaches list emission, the dead `num is None` guard
does not fire, and the emitted entry carries an empty `data-number`
attribute instead of raising the fatal missing-number error the spec
requires. -/
theorem spec_C2_behavior :
    xpathStringChild 9 noNumP1 (lTag "Pnumber") = ""
      ∧ strIsNone (xpathStringChild 9 noNumP1 (lTag "Pnumber")) = false
      ∧ run 9 (.sectionCall [noNumP1] 1)
          = .ok "<ol class=\"p1\"><li data-number=\"\"><p>hi</p></li></ol>"
      ∧ (∀ s : String, strIsNone s = false) := by
  refine ⟨by decide, by decide, ?_, fun s => rfl⟩
  set_option maxRecDepth 10000 in decide

/-- C5 counterexample: a `Pblock` whose only `P1` child exists but is
empty (no child elements).  The claim's any-matching-child-exists
condition holds, yet the source recurses into `parse_parts` (raising an
unknown part tag on the bare `P1`) instead of dispatching to the
Section-Item Transformer at level 0 — which would have succeeded. -/
theorem spec_C5_cex :
    (pblockNode.children.any (fun c => c.tag == lTag "P1")) = true
      ∧ bareElementsCond pblockNode = false
      ∧ run 9 (.partsLoop [pblockNode] dummyBody 2)
          = .error (.unknownPartTag "<l:P1>body text</l:P1>")
      ∧ run 9 (.items pblockNode 0)
          = .ok "<ol class=\"p1\"><li data-number=\"\"></li></ol>" := by
  refine ⟨by decide, by decide, ?_, ?_⟩ <;> (set_option maxRecDepth 10000 in decide)

/-- C5 (amended).  The bare-element special case fires exactly when the
*first* `P1`, `Tabular`, or `BlockAmendment` child exists and itself has
at least one child element (lxml truthiness of `find`), and then the
container is handed to the Section-Item Transformer at level 0;
otherwise the transformer recurses into `parse_parts` at depth+1. -/
theorem spec_C5_amended :
    (∀ part : Node,
      bareElementsCond part = true ↔
        ((∃ c, findChild part (lTag "P1") = some c ∧ c.children ≠ [])
          ∨ (∃ c, findChild part (lTag "Tabular") = some c ∧ c.children ≠ [])
          ∨ (∃ c, findChild part (lTag "BlockAmendment") = some c ∧ c.children ≠ []))) ∧
    (∀ (f : Nat) (part : Node) (rest : List Node) (body : Node) (level : Nat),
      partBranchOf part.tag = PartBranch.container → bareElementsCond part = true →
        run (f + 1) (.partsLoop (part :: rest) body level)
          = (do
              let inner ← run f (.items part 0)
              let tl ← run f (.partsLoop rest body level)
              .ok (renderTag "section" (idAttrs part) inner ++ tl))) ∧
    (∀ (f : Nat) (part : Node) (rest : List Node) (body : Node) (level : Nat),
      partBranchOf part.tag = PartBranch.container → bareElementsCond part = false →
        run (f + 1) (.partsLoop (part :: rest) body level)
          = (do
              let inner ← run f (.parts part (level + 1))
              let tl ← run f (.partsLoop rest body level)
              .ok (renderTag "section" (idAttrs part) inner ++ tl))) := by
  refine ⟨?_, ?_, ?_⟩
  · intro part
    unfold bareElementsCond pyTruthyElem
    constructor
    · intro h
      rcases Bool.or_eq_true_iff.mp h with h | h
      rcases Bool.or_eq_true_iff.mp h with h | h
      · refine Or.inl ?_
        rcases hf : findChild part (lTag "P1") with _ | c
        · rw [hf] at h; cases h
        · rw [hf] at h
          exact ⟨c, rfl, by simpa using h⟩
      · refine Or.inr (Or.inl ?_)
        rcases hf : findChild part (lTag "Tabular") with _ | c
        · rw [hf] at h; cases h
        · rw [hf] at h
          exact ⟨c, rfl, by simpa using h⟩
      · refine Or.inr (Or.inr ?_)
        rcases hf : findChild part (lTag "BlockAmendment") with _ | c
        · rw [hf] at h; cases h
        · rw [hf] at h
          exact ⟨c, rfl, by simpa using h⟩
    · intro h
      rcases h with ⟨c, hf, hc⟩ | ⟨c, hf, hc⟩ | ⟨c, hf, hc⟩ <;> rw [hf] <;> simp [hc]
  · intro f part rest body level hb hcond
    simp only [run, hb, hcond, if_true]
  · intro f part rest body level hb hcond
    simp only [run, hb, hcond, Bool.false_eq_true, if_false]

/-- Witness for C5 (amended) at concrete containers: the bare-element
case fires for a `Pblock` holding a non-empty `P1`, and recursion
happens for `pblockNode`, whose only `P1` child is empty. -/
theorem spec_C5_amended_witness :
    (bareElementsCond (Node.mk (lTag "Pblock") [] none [p1item] none) = true)
      ∧ run 4 (.partsLoop [pblockNode] dummyBody 2)
          = (do
              let inner ← run 3 (.parts pblockNode 3)
              let tl ← run 3 (.partsLoop [] dummyBody 2)
              .ok (renderTag "section" (idAttrs pblockNode) inner ++ tl)) := by
  constructor
  · exact (spec_C5_amended.1 _).mpr (Or.inl ⟨p1item, rfl, by simp [p1item, Node.children]⟩)
  · exact spec_C5_amended.2.2 3 pblockNode [] dummyBody 2 (by decide) (by decide)

lemma itemBranch_blockAmendment (level : Nat) :
    itemBranchOf level (lTag "BlockAmendment") = ItemBranch.blockAmendment := by
  unfold itemBranchOf
  rw [if_neg (by decide), if_neg (by decide), if_neg (by decide), if_neg (by decide),
    if_neg (by decide), if_neg (blockAmendment_not_paraTag level), if_neg (by decide),
    if_pos rfl]

/-- C6.  The Block-Amendment Resolver classifies the fragment by its
immediate children — container-level child present delegates to
`parse_parts` with heading depth reset to 1, else tabular/plain-text
children delegate to `parse_section_items` at level 1, else all children
go to `parse_section` at level 1 — and the rendering of a
block-amendment child never depends on the ambient level at which the
amendment appears. -/
theorem spec_C6 :
    (∀ (f : Nat) (item : Node),
      (∃ c ∈ item.children, c.tag ∈ amendGroupTags) →
        run (f + 1) (.blockAmendment item) = run f (.parts item 1)) ∧
    (∀ (f : Nat) (item : Node),
      (∀ c ∈ item.children, c.tag ∉ amendGroupTags) →
      (∃ c ∈ item.children, c.tag = lTag "Tabular" ∨ c.tag = lTag "Text") →
        run (f + 1) (.blockAmendment item) = run f (.items item 1)) ∧
    (∀ (f : Nat) (item : Node),
      (∀ c ∈ item.children, c.tag ∉ amendGroupTags) →
      (∀ c ∈ item.children, c.tag ≠ lTag "Tabular" ∧ c.tag ≠ lTag "Text") →
        run (f + 1) (.blockAmendment item) = run f (.sectionCall item.children 1)) ∧
    (∀ (f : Nat) (item : Node) (level : Nat),
      item.tag = lTag "BlockAmendment" →
        run (f + 1) (.dispatch item level)
          = (run f (.blockAmendment item)).map
              (fun s => renderTag "blockquote" [("class", some "amendment")] s)) := by
  refine ⟨?_, ?_, ?_, ?_⟩
  · intro f item hex
    rcases hex with ⟨c, hc, hmem⟩
    have hfil : c ∈ item.children.filter (fun c => amendGroupTags.contains c.tag) :=
      List.mem_filter.mpr ⟨hc, by
        simp only [List.contains, List.elem_eq_mem, decide_eq_true_eq]
        exact hmem⟩
    have hlen : 0 < (item.children.filter (fun c => amendGroupTags.contains c.tag)).length :=
      List.length_pos.mpr (List.ne_nil_of_mem hfil)
    simp only [run, hlen, if_true]
  · intro f item hall hex
    have hfil : (item.children.filter (fun c => amendGroupTags.contains c.tag)) = [] :=
      List.filter_eq_nil_iff.mpr (fun c hc => by
        simp only [List.contains, List.elem_eq_mem, decide_eq_true_eq]
        exact hall c hc)
    rcases hex with ⟨c, hc, hmem⟩
    have hfil2 : c ∈ item.children.filter
        (fun c => c.tag == lTag "Tabular" || c.tag == lTag "Text") := by
      refine List.mem_filter.mpr ⟨hc, ?_⟩
      rcases hmem with h | h <;> simp [h]
    have hne : (item.children.filter
        (fun c => c.tag == lTag "Tabular" || c.tag == lTag "Text")).isEmpty = false := by
      rcases hfe : item.children.filter
          (fun c => c.tag == lTag "Tabular" || c.tag == lTag "Text") with _ | _
      · rw [hfe] at hfil2; cases hfil2
      · rw [hfe]; rfl
    simp only [run, hfil, List.length_nil, Nat.lt_irrefl, if_false, hne,
      Bool.not_false, if_true]
  · intro f item hall1 hall2
    have hfil : (item.children.filter (fun c => amendGroupTags.contains c.tag)) = [] :=
      List.filter_eq_nil_iff.mpr (fun c hc => by
        simp only [List.contains, List.elem_eq_mem, decide_eq_true_eq]
        exact hall1 c hc)
    have hfil2 : (item.children.filter
        (fun c => c.tag == lTag "Tabular" || c.tag == lTag "Text")) = [] := by
      refine List.filter_eq_nil_iff.mpr (fun c hc => ?_)
      have := hall2 c hc
      simp [this.1, this.2]
    simp only [run, hfil, List.length_nil, Nat.lt_irrefl, if_false, hfil2,
      List.isEmpty_nil, Bool.not_true, Bool.false_eq_true]
  · intro f item level h
    have hb : itemBranchOf level item.tag = ItemBranch.blockAmendment := by
      rw [h]; exact itemBranch_blockAmendment level
    simp only [run, hb]

/-- Witness for C6: the concrete block amendment containing a grouped
provision is delegated to `parse_parts` at depth 1, and its dispatch
output at ambient levels 1 and 7 coincides. -/
theorem spec_C6_witness :
    run 20 (.blockAmendment baNode) = run 19 (.parts baNode 1)
      ∧ run 20 (.dispatch baNode 7)
          = (run 19 (.blockAmendment baNode)).map
              (fun s => renderTag "blockquote" [("class", some "amendment")] s)
      ∧ run 20 (.dispatch baNode 1)
          = (run 19 (.blockAmendment baNode)).map
              (fun s => renderTag "blockquote" [("class", some "amendment")] s) := by
  refine ⟨?_, ?_, ?_⟩
  · exact spec_C6.1 19 baNode ⟨p1groupNode, by simp [baNode, Node.children],
      by decide⟩
  · exact spec_C6.2.2.2 19 baNode 7 (by decide)
  · exact spec_C6.2.2.2 19 baNode 1 (by decide)

lemma textPieces_foldr (f : Nat) (l : List Node) :
    textPieces f l
      = (l.map (fun c => inlinePiece f c ++ htmlEscape (cleanText c.tail))).foldr
          (· ++ ·) "" := by
  induction l with
  | nil => rfl
  | cons c rest ih =>
      simp only [textPieces, List.map_cons, List.foldr_cons, ih, String.append_assoc]

/-- C7.  The Inline Text Renderer emits the node's leading text
whitespace-normalized, then each inline child's rendering followed by
its whitespace-normalized tail, and on the spec's concrete
mixed-content example produces exactly
`Foo <abbr title="Bar">B</abbr> baz`. -/
theorem spec_C7 :
    (∀ (f : Nat) (n : Node),
      getText f n
        = htmlEscape (cleanText n.text)
            ++ (n.children.map (fun c => inlinePiece f c ++ htmlEscape (cleanText c.tail))).foldr
                (· ++ ·) "")
      ∧ getText 5 fooNode = "Foo <abbr title=\"Bar\">B</abbr> baz" := by
  constructor
  · intro f n
    rw [getText, textPieces_foldr]
  · decide

/-- C8 counterexample: a title marker reached by `parse_parts` at depth
3 is emitted as an `h2` heading — `get_title(body, 2)` hardcodes depth 2
— not at the depth parameter as the claim states. -/
theorem spec_C8_cex :
    run 9 (.partsLoop [titleNode] parentNode 3) = .ok (getTitle 8 parentNode 2)
      ∧ getTitle 8 parentNode 2 = "<h2>T</h2>"
      ∧ getTitle 8 parentNode 3 = "<h3>T</h3>"
      ∧ ("<h2>T</h2>" : String) ≠ "<h3>T</h3>" := by
  refine ⟨?_, ?_, ?_, ?_⟩ <;> decide

/-- C8 (amended).  For every title-marker child the Part Transformer
emits a heading read from the parent container at the fixed depth 2,
whatever depth parameter it was called with. -/
theorem spec_C8_amended :
    ∀ (f : Nat) (t : Node) (rest : List Node) (body : Node) (level : Nat),
      partBranchOf t.tag = PartBranch.titleMarker →
        run (f + 1) (.partsLoop (t :: rest) body level)
          = (run f (.partsLoop rest body level)).map (fun s => getTitle f body 2 ++ s) := by
  intro f t rest body level h
  simp only [run, h]
  cases hX : run f (.partsLoop rest body level) <;> rfl

/-- Witness for C8 (amended) at depth 5: the heading still comes from
the parent at depth 2. -/
theorem spec_C8_amended_witness :
    run 9 (.partsLoop [titleNode] parentNode 5)
      = (run 8 (.partsLoop [] parentNode 5)).map (fun s => getTitle 8 parentNode 2 ++ s) :=
  spec_C8_amended 8 titleNode [] parentNode 5 (by decide)

/-- C9.  A document with neither a `Primary` nor a `Secondary` root
yields `None` from both `get_body` and `get_preamble`, with no error
raised. -/
theorem spec_C9 :
    ∀ (f : Nat) (doc : Node),
      (∀ c ∈ doc.children, c.tag ≠ lTag "Primary") →
      (∀ c ∈ doc.children, c.tag ≠ lTag "Secondary") →
        getBody f doc = .ok none ∧ getPreamble f doc = .ok none := by
  intro f doc h1 h2
  have hp : doc.children.find? (fun c => c.tag == lTag "Primary") = none :=
    List.find?_eq_none.mpr (fun c hc => by simp [h1 c hc])
  have hs : doc.children.find? (fun c => c.tag == lTag "Secondary") = none :=
    List.find?_eq_none.mpr (fun c hc => by simp [h2 c hc])
  have hr : getRoot doc = none := by
    unfold getRoot findChild
    rw [hp, hs]
  constructor
  · unfold getBody
    rw [hr]
  · unfold getPreamble
    rw [hr]

/-- Witness for C9 on a concrete rootless document. -/
theorem spec_C9_witness :
    getBody 3 bareDoc = .ok none ∧ getPreamble 3 bareDoc = .ok none :=
  spec_C9 3 bareDoc (by decide) (by decide)

/-- C10 counterexample: with no `Metadata` subtree `get_metadata`
dereferences `None` (an `AttributeError`) rather than returning a
mapping, and a present-but-empty `dc:title` is mapped to `None`, not to
a string value. -/
theorem spec_C10_cex :
    getMetadata bareDoc = .error PyErr.attrError
      ∧ getMetadata docEmptyTitle = .ok [("title", (none : Option String))] := by
  constructor <;> decide

/-- C10 (amended).  Whenever the `Metadata` subtree is present,
`get_metadata` returns (without failing) a mapping holding exactly the
keys of the fixed set whose source elements are present, each carrying
its element's text content — which is absent, not a string, for an empty
element — and omitting absent keys with no default. -/
theorem spec_C10_amended :
    ∀ doc md : Node, findChild doc "ukm:Metadata" = some md →
      ∃ m, getMetadata doc = .ok m
        ∧ (∀ k v, (k, v) ∈ m →
            ∃ sel el, (k, sel) ∈ metaSelectors ∧ findChild md sel = some el ∧ v = el.text)
        ∧ (∀ k sel el, (k, sel) ∈ metaSelectors → findChild md sel = some el →
            (k, el.text) ∈ m)
        ∧ (∀ k sel, (k, sel) ∈ metaSelectors → findChild md sel = none →
            ∀ v, (k, v) ∉ m) := by
  intro doc md h
  refine ⟨metaSelectors.filterMap (fun ks => (findChild md ks.2).map (fun el => (ks.1, el.text))),
    by simp [getMetadata, h], ?_, ?_, ?_⟩
  · intro k v hkv
    rcases List.mem_filterMap.mp hkv with ⟨ks, hks, hmap⟩
    rcases Option.map_eq_some'.mp hmap with ⟨el, hel, heq⟩
    have hk : ks.1 = k := congrArg Prod.fst heq
    have hv : el.text = v := congrArg Prod.snd heq
    exact ⟨ks.2, el, by rw [← hk]; exact hks, hel, hv.symm⟩
  · intro k sel el hks hel
    exact List.mem_filterMap.mpr ⟨(k, sel), hks, by simp [hel]⟩
  · intro k sel hks hnone v hv
    rcases List.mem_filterMap.mp hv with ⟨ks, hksm, hmap⟩
    rcases Option.map_eq_some'.mp hmap with ⟨el, hel, heq⟩
    have hk : ks.1 = k := congrArg Prod.fst heq
    simp only [metaSelectors, List.mem_cons, List.not_mem_nil, or_false] at hks hksm
    rcases hks with hks | hks | hks <;> rcases hksm with rfl | rfl | rfl <;>
      simp_all

/-- Witness for C10 (amended) on a concrete document whose metadata
subtree holds a title and a modified date but no description. -/
theorem spec_C10_amended_witness :
    ∃ m, getMetadata docFullMeta = .ok m
      ∧ (∀ k v, (k, v) ∈ m →
          ∃ sel el, (k, sel) ∈ metaSelectors ∧ findChild mdFull sel = some el ∧ v = el.text)
      ∧ (∀ k sel el, (k, sel) ∈ metaSelectors → findChild mdFull sel = some el →
          (k, el.text) ∈ m)
      ∧ (∀ k sel, (k, sel) ∈ metaSelectors → findChild mdFull sel = none →
          ∀ v, (k, v) ∉ m) :=
  spec_C10_amended docFullMeta mdFull rfl
